import Mathlib

set_option autoImplicit false

/-!
Shallow embedding of the `urcu` crate's deferred-reference ownership model
(`src/urcu/src/rcu/reference.rs`, `src/urcu/src/hashmap/reference.rs`) and of
its RCU hash-map container (`src/urcu/src/hashmap/container.rs`).

Sequential semantics: the properties verified below are about the functional
behaviour of single operations and sequences of operations, so stateful Rust
code is embedded as explicit state passing.  Calls into the RCU engine
(`rcu_synchronize`, read-lock enter/exit, table destruction, submission to the
cleanup thread) are recorded as events in an explicit event log, which lets us
state ordering properties such as "the grace-period barrier precedes the
unchecked conversion".
-/

namespace Urcu

/-- Observable interactions with the RCU engine (the external collaborator):
grace-period barrier, unchecked ownership taking, read-side lock enter/exit,
destruction of the raw table, and submission of a work unit to the cleanup
coordinator thread. -/
inductive RcuEvent where
  | sync
  | takeUnchecked
  | readLock
  | readUnlock
  | destroyTable
  | cleanupSubmit
deriving DecidableEq, Repr

/-- Embedding of `RcuContext::rcu_synchronize`: the blocking grace-period
barrier of the external engine; recorded as a `sync` event. -/
def rcu_synchronize (log : List RcuEvent) : List RcuEvent :=
  log ++ [RcuEvent.sync]

/-- Embedding of `RawNode<K, V>` (the intrusive hash-map node): its payload is
a key and a value; the intrusive chain link is represented by the node's
position in its bucket's list. -/
structure RawNode (K V : Type) where
  key : K
  value : V
deriving DecidableEq, Repr

/-- Embedding of `hashmap::reference::RefOwned<K, V>`: a `Box<RawNode<K, V>>`
obtained once ownership of a detached node has been taken. -/
structure RefOwned (K V : Type) where
  node : RawNode K V
deriving DecidableEq, Repr

/-- Embedding of `RefOwned::key`. -/
def RefOwned.key {K V : Type} (o : RefOwned K V) : K :=
  o.node.key

/-- Embedding of `RefOwned::value`. -/
def RefOwned.value {K V : Type} (o : RefOwned K V) : V :=
  o.node.value

/-- Embedding of `hashmap::reference::Ref<K, V, C>`: a deferred reference to a
detached hash-map node.  The nullable raw pointer `ptr: *mut RawNode<K, V>` is
modelled as an `Option`: `none` is the null pointer. -/
structure Ref (K V : Type) where
  ptr : Option (RawNode K V)
deriving DecidableEq, Repr

/-- Embedding of `Ref::new` (always called on a `NonNull` pointer). -/
def Ref.new {K V : Type} (n : RawNode K V) : Ref K V :=
  ⟨some n⟩

/-- Embedding of `Ref::key` (the source dereferences `ptr` unchecked; on the
null pointer the source would be undefined, modelled as `none`). -/
def Ref.key {K V : Type} (r : Ref K V) : Option K :=
  r.ptr.map RawNode.key

/-- Embedding of `Ref::value` (see `Ref.key` for the null case). -/
def Ref.value {K V : Type} (r : Ref K V) : Option V :=
  r.ptr.map RawNode.value

/-- Embedding of `<Ref as RcuRef>::take_ownership_unchecked`: converts the
pointer into an owned box (`Box::from_raw`; undefined on null, modelled as
`none`), then nulls the internal pointer so the implicit drop of `self` at the
end of the call performs no cleanup.  Returns the pair (output, state of
`self` at its implicit drop). -/
def Ref.take_ownership_unchecked {K V : Type} (r : Ref K V) :
    Option (RefOwned K V) × Ref K V :=
  (r.ptr.map RefOwned.mk, ⟨none⟩)

/-- Embedding of `impl Drop for Ref`: the list of deferred references the drop
hands to `RcuRef::safe_cleanup` (empty when the internal pointer is null,
otherwise exactly the reference itself, reconstructed with the same pointer). -/
def Ref.drop_submissions {K V : Type} (r : Ref K V) : List (Ref K V) :=
  match r.ptr with
  | none => []
  | some _ => [r]

/-- Embedding of `RcuRef::take_ownership` (the trait's default method, as
inherited by the hash-map `Ref`): calls `rcu_synchronize` on the context, then
`take_ownership_unchecked`.  The unchecked conversion is recorded as a
`takeUnchecked` event. -/
def Ref.take_ownership {K V : Type} (r : Ref K V) (log : List RcuEvent) :
    (Option (RefOwned K V) × Ref K V) × List RcuEvent :=
  let log := rcu_synchronize log
  (r.take_ownership_unchecked, log ++ [RcuEvent.takeUnchecked])

/-- Embedding of the work unit that `RcuRef::safe_cleanup` submits to
`C::rcu_cleanup` (the cleanup coordinator): the closure calls
`rcu_synchronize` on the coordinator's context, then
`take_ownership_unchecked`. -/
def Ref.safe_cleanup_work {K V : Type} (r : Ref K V) (log : List RcuEvent) :
    (Option (RefOwned K V) × Ref K V) × List RcuEvent :=
  let log := rcu_synchronize log
  (r.take_ownership_unchecked, log ++ [RcuEvent.takeUnchecked])

/-- Embedding of `unsafe impl<T, C> RcuRef<C> for Option<T>`: the element
type's unchecked conversion is abstracted as `f`. -/
def OptionRef.take_ownership_unchecked {α β : Type} (f : α → β) :
    Option α → Option β :=
  fun r => r.map f

/-- Embedding of `unsafe impl<T, C> RcuRef<C> for Vec<T>`:
`self.into_iter().map(|r| r.take_ownership_unchecked()).collect()`. -/
def VecRef.take_ownership_unchecked {α β : Type} (f : α → β) :
    List α → List β :=
  fun rs => rs.map f

/-- Embedding of `impl_rcu_ref_for_tuple!(0, 1)`. -/
def Tuple2Ref.take_ownership_unchecked {α0 β0 α1 β1 : Type}
    (f0 : α0 → β0) (f1 : α1 → β1) : α0 × α1 → β0 × β1 :=
  fun t => (f0 t.1, f1 t.2)

/-- Embedding of `impl_rcu_ref_for_tuple!(0, 1, 2)`. -/
def Tuple3Ref.take_ownership_unchecked {α0 β0 α1 β1 α2 β2 : Type}
    (f0 : α0 → β0) (f1 : α1 → β1) (f2 : α2 → β2) :
    α0 × α1 × α2 → β0 × β1 × β2 :=
  fun t => (f0 t.1, f1 t.2.1, f2 t.2.2)

/-- Embedding of `impl_rcu_ref_for_tuple!(0, 1, 2, 3)`. -/
def Tuple4Ref.take_ownership_unchecked {α0 β0 α1 β1 α2 β2 α3 β3 : Type}
    (f0 : α0 → β0) (f1 : α1 → β1) (f2 : α2 → β2) (f3 : α3 → β3) :
    α0 × α1 × α2 × α3 → β0 × β1 × β2 × β3 :=
  fun t => (f0 t.1, f1 t.2.1, f2 t.2.2.1, f3 t.2.2.2)

/-- Embedding of `impl_rcu_ref_for_tuple!(0, 1, 2, 3, 4)`. -/
def Tuple5Ref.take_ownership_unchecked {α0 β0 α1 β1 α2 β2 α3 β3 α4 β4 : Type}
    (f0 : α0 → β0) (f1 : α1 → β1) (f2 : α2 → β2) (f3 : α3 → β3)
    (f4 : α4 → β4) : α0 × α1 × α2 × α3 × α4 → β0 × β1 × β2 × β3 × β4 :=
  fun t => (f0 t.1, f1 t.2.1, f2 t.2.2.1, f3 t.2.2.2.1, f4 t.2.2.2.2)

/-- Embedding of `impl_rcu_ref_for_tuple!(0, 1, 2, 3, 4, 5)`. -/
def Tuple6Ref.take_ownership_unchecked
    {α0 β0 α1 β1 α2 β2 α3 β3 α4 β4 α5 β5 : Type}
    (f0 : α0 → β0) (f1 : α1 → β1) (f2 : α2 → β2) (f3 : α3 → β3)
    (f4 : α4 → β4) (f5 : α5 → β5) :
    α0 × α1 × α2 × α3 × α4 × α5 → β0 × β1 × β2 × β3 × β4 × β5 :=
  fun t =>
    (f0 t.1, f1 t.2.1, f2 t.2.2.1, f3 t.2.2.2.1, f4 t.2.2.2.2.1,
      f5 t.2.2.2.2.2)

/-- Embedding of `impl_rcu_ref_for_tuple!(0, 1, 2, 3, 4, 5, 6)`. -/
def Tuple7Ref.take_ownership_unchecked
    {α0 β0 α1 β1 α2 β2 α3 β3 α4 β4 α5 β5 α6 β6 : Type}
    (f0 : α0 → β0) (f1 : α1 → β1) (f2 : α2 → β2) (f3 : α3 → β3)
    (f4 : α4 → β4) (f5 : α5 → β5) (f6 : α6 → β6) :
    α0 × α1 × α2 × α3 × α4 × α5 × α6 → β0 × β1 × β2 × β3 × β4 × β5 × β6 :=
  fun t =>
    (f0 t.1, f1 t.2.1, f2 t.2.2.1, f3 t.2.2.2.1, f4 t.2.2.2.2.1,
      f5 t.2.2.2.2.2.1, f6 t.2.2.2.2.2.2)

/-- Modelled from the spec: `hashmap::raw::RawMap` (file `hashmap/raw.rs` is
absent from the sources; only its caller `container.rs` is present).  Per §4.3
of the spec, the raw table is "a fixed or resizable array of bucket head
pointers; each bucket is a singly linked chain of Nodes ordered by insertion",
and a key's target bucket is selected by hashing. -/
structure RawMap (K V : Type) where
  hash : K → Nat
  buckets : List (List (RawNode K V))

/-- Modelled from the spec: construction of the raw table (`RawMap::new`) with
a given hash function and a fixed number of (initially empty) buckets. -/
def RawMap.new {K V : Type} (hash : K → Nat) (nbuckets : Nat) : RawMap K V :=
  ⟨hash, List.replicate nbuckets []⟩

/-- Index of the bucket targeted by key `k`. -/
def RawMap.bucketIdx {K V : Type} (m : RawMap K V) (k : K) : Nat :=
  m.hash k % m.buckets.length

/-- Modelled from the spec: the read-side walk of one bucket chain
("walks the bucket without any mutation ... a single linear scan", §4.3).
Returns the first node whose key equals `k`, together with the chain as left
behind by the walk, so that the absence of mutation is a provable statement
rather than a modelling assumption. -/
def lookupWalk {K V : Type} [DecidableEq K] (k : K) :
    List (RawNode K V) → Option (RawNode K V) × List (RawNode K V)
  | [] => (none, [])
  | n :: ns =>
    if n.key = k then (some n, n :: ns)
    else
      let r := lookupWalk k ns
      (r.1, n :: r.2)

/-- Modelled from the spec: `RawMap::lookup` walks the target bucket
(`lookup(key)` in §4.3).  Returns the found node (if any) and the table as
left behind by the walk. -/
def RawMap.lookup {K V : Type} [DecidableEq K] (m : RawMap K V) (k : K) :
    Option (RawNode K V) × RawMap K V :=
  match m.buckets.get? (m.bucketIdx k) with
  | none => (none, m)
  | some b =>
    let r := lookupWalk k b
    (r.1, ⟨m.hash, m.buckets.set (m.bucketIdx k) r.2⟩)

/-- Modelled from the spec: the replace walk of `insert_or_replace` ("if a
node with an equal key exists, atomically splices the new node in its place
and detaches the old node", §4.3).  Returns `none` when no node with an equal
key exists, otherwise the chain with the new node spliced in place of the
first equal-key node, together with that detached node. -/
def replaceWalk {K V : Type} [DecidableEq K] (nw : RawNode K V) :
    List (RawNode K V) → Option (List (RawNode K V) × RawNode K V)
  | [] => none
  | n :: ns =>
    if n.key = nw.key then some (nw :: ns, n)
    else (replaceWalk nw ns).map (fun r => (n :: r.1, r.2))

/-- Modelled from the spec: `RawMap::add_replace` (`insert_or_replace(key,
value)` in §4.3): splice in place of an equal-key node and return the
detached node, "otherwise atomically prepends a new node to the bucket head".
Returns the detached node (null pointer modelled as `none`) and the updated
table. -/
def RawMap.add_replace {K V : Type} [DecidableEq K] (m : RawMap K V)
    (k : K) (v : V) : Option (RawNode K V) × RawMap K V :=
  match m.buckets.get? (m.bucketIdx k) with
  | none => (none, m)
  | some b =>
    match replaceWalk ⟨k, v⟩ b with
    | some r => (some r.2, ⟨m.hash, m.buckets.set (m.bucketIdx k) r.1⟩)
    | none => (none, ⟨m.hash, m.buckets.set (m.bucketIdx k) (⟨k, v⟩ :: b)⟩)

/-- Modelled from the spec: the unlink step of `remove(key)` ("on match,
atomically unlinks the node from the chain", §4.3).  Returns the chain with
the first equal-key node unlinked, together with that node. -/
def removeWalk {K V : Type} [DecidableEq K] (k : K) :
    List (RawNode K V) → List (RawNode K V) × Option (RawNode K V)
  | [] => ([], none)
  | n :: ns =>
    if n.key = k then (ns, some n)
    else
      let r := removeWalk k ns
      (n :: r.1, r.2)

/-- Modelled from the spec: `RawMap::del`, the unlink of a matched node from
its bucket chain.  Returns the detached node (`none` when no node matches)
and the updated table. -/
def RawMap.del {K V : Type} [DecidableEq K] (m : RawMap K V) (k : K) :
    Option (RawNode K V) × RawMap K V :=
  match m.buckets.get? (m.bucketIdx k) with
  | none => (none, m)
  | some b =>
    let r := removeWalk k b
    (r.2, ⟨m.hash, m.buckets.set (m.bucketIdx k) r.1⟩)

/-- Modelled from the spec: `RawMap::iter` ("produces a lazy ... sequence
over all buckets' chains", §4.3), as the sequence of nodes it yields. -/
def RawMap.iter {K V : Type} (m : RawMap K V) : List (RawNode K V) :=
  m.buckets.flatten

/-- Modelled from the spec: `RawMap::del_all` used by container teardown
("detaches every node from every bucket", §4.3).  Returns the detached nodes
and the emptied table. -/
def RawMap.del_all {K V : Type} (m : RawMap K V) :
    List (RawNode K V) × RawMap K V :=
  (m.buckets.flatten, ⟨m.hash, List.replicate m.buckets.length []⟩)

/-- Embedding of `RcuHashMap<K, V, C>`: a wrapper around the raw table. -/
structure RcuHashMap (K V : Type) where
  raw : RawMap K V

/-- Embedding of `RcuHashMap::insert`: `add_replace`, then
`NonNull::new(node).map(Ref::new)`.  Returns the replaced node's deferred
reference (if any) and the updated map. -/
def RcuHashMap.insert {K V : Type} [DecidableEq K] (m : RcuHashMap K V)
    (k : K) (v : V) : Option (Ref K V) × RcuHashMap K V :=
  let r := m.raw.add_replace k v
  (r.1.map Ref.new, ⟨r.2⟩)

/-- Embedding of `RcuHashMap::contains`: `!lookup(key).get().is_null()`.
Returns the answer and the map as left behind by the lookup walk. -/
def RcuHashMap.contains {K V : Type} [DecidableEq K] (m : RcuHashMap K V)
    (k : K) : Bool × RcuHashMap K V :=
  let r := m.raw.lookup k
  (!r.1.isNone, ⟨r.2⟩)

/-- Embedding of `RcuHashMap::get`: `lookup(key)` then
`.map(|node| &node.value)`.  Returns the borrowed value (if any) and the map
as left behind by the lookup walk. -/
def RcuHashMap.get {K V : Type} [DecidableEq K] (m : RcuHashMap K V)
    (k : K) : Option V × RcuHashMap K V :=
  let r := m.raw.lookup k
  (r.1.map RawNode.value, ⟨r.2⟩)

/-- Embedding of `RcuHashMap::remove`: `lookup(key)`; when no node matches,
the returned pointer is null and the map is untouched; otherwise `del(node)`
unlinks the node and `NonNull::new(node).map(Ref::new)` wraps it. -/
def RcuHashMap.remove {K V : Type} [DecidableEq K] (m : RcuHashMap K V)
    (k : K) : Option (Ref K V) × RcuHashMap K V :=
  match (m.raw.lookup k).1 with
  | none => (none, m)
  | some _ =>
    let r := m.raw.del k
    (r.1.map Ref.new, ⟨r.2⟩)

/-- Embedding of `RcuHashMap::iter`: the pairs yielded by the iterator. -/
def RcuHashMap.iter {K V : Type} (m : RcuHashMap K V) : List (RawNode K V) :=
  m.raw.iter

/-- Number of live nodes for key `k` across all bucket chains. -/
def RcuHashMap.countKey {K V : Type} [DecidableEq K] (m : RcuHashMap K V)
    (k : K) : Nat :=
  m.raw.buckets.flatten.countP (fun n => decide (n.key = k))

/-- Embedding of `impl Drop for RcuHashMap`, calling-thread side: the drop
body only submits a work unit to `C::rcu_cleanup_and_block` (the cleanup
coordinator); it invokes no RCU primitive on the dropping thread itself. -/
def RcuHashMap.drop {K V : Type} (_m : RcuHashMap K V)
    (log : List RcuEvent) : List RcuEvent :=
  log ++ [RcuEvent.cleanupSubmit]

/-- Embedding of the work unit submitted by `impl Drop for RcuHashMap` (the
closure passed to `C::rcu_cleanup_and_block`): enter the read-side lock,
`del_all` the raw table, wrap every detached node as a `Ref`, leave the
read-side lock, take ownership of the whole `Vec` of references (one
`rcu_synchronize`, then the element-wise unchecked conversions), and finally
destroy the raw table.  Returns the batch of reclaimed owned entries and the
event log. -/
def RcuHashMap.drop_work {K V : Type} (m : RcuHashMap K V)
    (log : List RcuEvent) : List (Option (RefOwned K V)) × List RcuEvent :=
  let log := log ++ [RcuEvent.readLock]
  let r := m.raw.del_all
  let refs := r.1.map Ref.new
  let log := log ++ [RcuEvent.readUnlock]
  let log := rcu_synchronize log
  let owned := refs.map (fun x => x.take_ownership_unchecked.1)
  let log := log ++ refs.map (fun _ => RcuEvent.takeUnchecked)
  let log := log ++ [RcuEvent.destroyTable]
  (owned, log)

/-- Concrete instantiation used by the scenario claims: a table of four
buckets keyed by `Nat` with the identity hash. -/
def exampleMap : RcuHashMap Nat String :=
  ⟨RawMap.new id 4⟩

/-- The map holds no node whose key is `k`, in any bucket chain. -/
def RcuHashMap.hasNoKey {K V : Type} (m : RcuHashMap K V) (k : K) : Prop :=
  ∀ b ∈ m.raw.buckets, ∀ n ∈ b, n.key ≠ k

section Lemmas

variable {K V : Type} [DecidableEq K]

theorem lookupWalk_frame (k : K) (b : List (RawNode K V)) :
    (lookupWalk k b).2 = b := by
  induction b with
  | nil => rfl
  | cons n ns ih =>
    by_cases h : n.key = k <;> simp [lookupWalk, h, ih]

theorem list_set_of_get? {α : Type} (l : List α) (i : Nat) (b : α)
    (h : l.get? i = some b) : l.set i b = l := by
  induction l generalizing i with
  | nil => simp at h
  | cons x xs ih =>
    cases i with
    | zero => simp_all
    | succ j => simp_all [List.set]

theorem RawMap.lookup_frame (m : RawMap K V) (k : K) :
    (m.lookup k).2 = m := by
  unfold RawMap.lookup
  cases h : m.buckets.get? (m.bucketIdx k) with
  | none => rfl
  | some b =>
    simp only [lookupWalk_frame, list_set_of_get? _ _ _ h]

theorem lookupWalk_none_of_absent (k : K) (b : List (RawNode K V))
    (h : ∀ n ∈ b, n.key ≠ k) : (lookupWalk k b).1 = none := by
  induction b with
  | nil => rfl
  | cons n ns ih =>
    have hn : n.key ≠ k := h n (by simp)
    simp only [lookupWalk, if_neg hn]
    exact ih fun x hx => h x (by simp [hx])

theorem replaceWalk_none_of_absent (nw : RawNode K V) (b : List (RawNode K V))
    (h : ∀ n ∈ b, n.key ≠ nw.key) : replaceWalk nw b = none := by
  induction b with
  | nil => rfl
  | cons n ns ih =>
    have hn : n.key ≠ nw.key := h n (by simp)
    have hns : replaceWalk nw ns = none := ih fun x hx => h x (by simp [hx])
    simp [replaceWalk, if_neg hn, hns]

theorem replaceWalk_lookup (nw : RawNode K V) (b : List (RawNode K V))
    (r : List (RawNode K V) × RawNode K V) (h : replaceWalk nw b = some r) :
    (lookupWalk nw.key r.1).1 = some nw := by
  induction b generalizing r with
  | nil => simp [replaceWalk] at h
  | cons n ns ih =>
    by_cases hk : n.key = nw.key
    · simp only [replaceWalk, if_pos hk, Option.some.injEq] at h
      subst h
      simp [lookupWalk]
    · simp only [replaceWalk, if_neg hk] at h
      cases hm : replaceWalk nw ns with
      | none => rw [hm] at h; simp at h
      | some r' =>
        rw [hm] at h
        simp only [Option.map_some', Option.some.injEq] at h
        subst h
        simpa [lookupWalk, hk] using ih r' hm

theorem replaceWalk_of_lookup (k : K) (nw : RawNode K V)
    (b : List (RawNode K V)) (n : RawNode K V)
    (h : (lookupWalk k b).1 = some n) (hk : nw.key = k) :
    ∃ b', replaceWalk nw b = some (b', n) := by
  induction b with
  | nil => simp [lookupWalk] at h
  | cons x xs ih =>
    by_cases hx : x.key = k
    · simp only [lookupWalk, if_pos hx, Option.some.injEq] at h
      subst h
      exact ⟨nw :: xs, by simp [replaceWalk, hk, hx]⟩
    · simp only [lookupWalk, if_neg hx] at h
      obtain ⟨b', hb'⟩ := ih h
      exact ⟨x :: b', by simp [replaceWalk, hk, hx, hb']⟩

theorem removeWalk_of_lookup (k : K) (b : List (RawNode K V))
    (n : RawNode K V) (h : (lookupWalk k b).1 = some n) :
    (removeWalk k b).2 = some n := by
  induction b with
  | nil => simp [lookupWalk] at h
  | cons x xs ih =>
    by_cases hx : x.key = k
    · simp only [lookupWalk, if_pos hx, Option.some.injEq] at h
      subst h
      simp [removeWalk, hx]
    · simp only [lookupWalk, if_neg hx] at h
      simpa [removeWalk, hx] using ih h

theorem RawMap.lookup_none_of_absent (m : RawMap K V) (k : K)
    (h : ∀ b ∈ m.buckets, ∀ n ∈ b, n.key ≠ k) : (m.lookup k).1 = none := by
  unfold RawMap.lookup
  cases hb : m.buckets.get? (m.bucketIdx k) with
  | none => rfl
  | some b =>
    exact lookupWalk_none_of_absent k b (h b (List.get?_mem hb))

theorem RawMap.length_add_replace (m : RawMap K V) (k : K) (v : V) :
    (m.add_replace k v).2.buckets.length = m.buckets.length := by
  unfold RawMap.add_replace
  cases hb : m.buckets.get? (m.bucketIdx k) with
  | none => rfl
  | some b =>
    simp only [hb]
    cases hr : replaceWalk ⟨k, v⟩ b <;> simp [hr, List.length_set]

theorem RawMap.lookup_add_replace (m : RawMap K V) (k : K) (v : V)
    (hlen : 0 < m.buckets.length) :
    ((m.add_replace k v).2.lookup k).1 = some ⟨k, v⟩ := by
  have hi : m.bucketIdx k < m.buckets.length := Nat.mod_lt _ hlen
  obtain ⟨b, hb⟩ : ∃ b, m.buckets.get? (m.bucketIdx k) = some b :=
    ⟨_, List.get?_eq_get hi⟩
  unfold RawMap.add_replace
  cases hr : replaceWalk ⟨k, v⟩ b with
  | some r =>
    simp only [hb, hr]
    have hidx : (⟨m.hash, m.buckets.set (m.bucketIdx k) r.1⟩ :
        RawMap K V).bucketIdx k = m.bucketIdx k := by
      simp [RawMap.bucketIdx, List.length_set]
    simp only [RawMap.lookup, hidx, List.get?_set_eq_of_lt _ hi]
    have := replaceWalk_lookup ⟨k, v⟩ b r hr
    simpa using this
  | none =>
    simp only [hb, hr]
    have hidx : (⟨m.hash, m.buckets.set (m.bucketIdx k) (⟨k, v⟩ :: b)⟩ :
        RawMap K V).bucketIdx k = m.bucketIdx k := by
      simp [RawMap.bucketIdx, List.length_set]
    simp only [RawMap.lookup, hidx, List.get?_set_eq_of_lt _ hi]
    simp [lookupWalk]

theorem RawMap.del_of_lookup (m : RawMap K V) (k : K) (n : RawNode K V)
    (h : (m.lookup k).1 = some n) : (m.del k).1 = some n := by
  unfold RawMap.lookup at h
  unfold RawMap.del
  cases hb : m.buckets.get? (m.bucketIdx k) with
  | none => rw [hb] at h; simp at h
  | some b =>
    rw [hb] at h
    simp only [hb]
    exact removeWalk_of_lookup k b n h

theorem RawMap.add_replace_of_lookup (m : RawMap K V) (k : K)
    (n : RawNode K V) (v' : V) (h : (m.lookup k).1 = some n) :
    (m.add_replace k v').1 = some n := by
  unfold RawMap.lookup at h
  unfold RawMap.add_replace
  cases hb : m.buckets.get? (m.bucketIdx k) with
  | none => rw [hb] at h; simp at h
  | some b =>
    rw [hb] at h
    obtain ⟨b', hb'⟩ := replaceWalk_of_lookup k ⟨k, v'⟩ b n h rfl
    simp [hb, hb']

theorem list_sum_set_of_zero (l : List Nat) (i : Nat) (a : Nat)
    (h0 : ∀ x ∈ l, x = 0) (hi : i < l.length) : (l.set i a).sum = a := by
  induction l generalizing i with
  | nil => simp at hi
  | cons x xs ih =>
    cases i with
    | zero =>
      have : xs.sum = 0 := List.sum_eq_zero fun y hy => h0 y (by simp [hy])
      simp [this]
    | succ j =>
      have hx : x = 0 := h0 x (by simp)
      have : (xs.set j a).sum = a :=
        ih j (fun y hy => h0 y (by simp [hy])) (by simpa using hi)
      simp [hx, this]

end Lemmas

/-- C9: for every map state and key `k`, the read operations `contains(k)` and
`get(k)` perform no mutation: the map left behind by their bucket walk is
exactly the original map, bucket chain for bucket chain. -/
theorem c9_reads_are_pure {K V : Type} [DecidableEq K] (m : RcuHashMap K V)
    (k : K) : (m.contains k).2 = m ∧ (m.get k).2 = m := by
  have h := RawMap.lookup_frame m.raw k
  obtain ⟨raw⟩ := m
  exact ⟨congrArg RcuHashMap.mk h, congrArg RcuHashMap.mk h⟩

/-- C10: for every map state and key `k`, `contains(k)` returns `true` exactly
when `get(k)` returns `Some`: both are defined by the same bucket lookup. -/
theorem c10_contains_iff_get {K V : Type} [DecidableEq K] (m : RcuHashMap K V)
    (k : K) : (m.contains k).1 = true ↔ ((m.get k).1).isSome = true := by
  cases h : (m.raw.lookup k).1 <;>
    simp [RcuHashMap.contains, RcuHashMap.get, h]

/-- C3: for every map state and key `k` not present in the map, `get(k)`
returns `none`, `contains(k)` returns `false`, and `remove(k)` returns `none`
while leaving the map unchanged; the operations are total, so "not found" is
an ordinary empty result and never a failure. -/
theorem c3_missing_key_is_noop {K V : Type} [DecidableEq K]
    (m : RcuHashMap K V) (k : K) (h : m.hasNoKey k) :
    (m.get k).1 = none ∧ (m.contains k).1 = false ∧ m.remove k = (none, m) := by
  have hl := RawMap.lookup_none_of_absent m.raw k h
  refine ⟨?_, ?_, ?_⟩ <;>
    simp [RcuHashMap.get, RcuHashMap.contains, RcuHashMap.remove, hl]

/-- Witness for C3 at the concrete empty four-bucket map and key `5`. -/
theorem c3_missing_key_is_noop_witness :
    (exampleMap.get 5).1 = none ∧ (exampleMap.contains 5).1 = false ∧
      exampleMap.remove 5 = (none, exampleMap) :=
  c3_missing_key_is_noop exampleMap 5
    (by decide : ∀ b ∈ exampleMap.raw.buckets, ∀ n ∈ b, n.key ≠ 5)

/-- C5: exactly one reclamation per hash-map deferred reference:
`take_ownership_unchecked` nulls the internal pointer, so the implicit drop
after taking ownership submits nothing to `safe_cleanup`, while dropping a
reference whose ownership was never taken submits it (and thereby its node)
to `safe_cleanup` exactly once. -/
theorem c5_exactly_one_reclamation {K V : Type} (n : RawNode K V) :
    ((Ref.new n).take_ownership_unchecked).2.ptr = none
    ∧ Ref.drop_submissions ((Ref.new n).take_ownership_unchecked).2 = []
    ∧ Ref.drop_submissions (Ref.new n) = [Ref.new n]
    ∧ (Ref.drop_submissions (Ref.new n)).length = 1
    ∧ ((Ref.new n).take_ownership_unchecked).1 = some ⟨n⟩ :=
  ⟨rfl, rfl, rfl, rfl, rfl⟩

/-- C6: converting a composite deferred reference performs the unchecked
conversion on each element: `Option` maps `none` to `none` and `some` to
`some` of the element's conversion; `Vec` converts element-wise, preserving
length and order; tuples of arity 2 through 7 convert component-wise. -/
theorem c6_composite_conversion :
    (∀ (α β : Type) (f : α → β),
      OptionRef.take_ownership_unchecked f none = none
      ∧ ∀ r, OptionRef.take_ownership_unchecked f (some r) = some (f r))
    ∧ (∀ (α β : Type) (f : α → β) (rs : List α),
      (VecRef.take_ownership_unchecked f rs).length = rs.length
      ∧ ∀ i, (VecRef.take_ownership_unchecked f rs).get? i =
          (rs.get? i).map f)
    ∧ (∀ (α0 β0 α1 β1 : Type) (f0 : α0 → β0) (f1 : α1 → β1) (a0 : α0)
        (a1 : α1),
      Tuple2Ref.take_ownership_unchecked f0 f1 (a0, a1) = (f0 a0, f1 a1))
    ∧ (∀ (α0 β0 α1 β1 α2 β2 : Type) (f0 : α0 → β0) (f1 : α1 → β1)
        (f2 : α2 → β2) (a0 : α0) (a1 : α1) (a2 : α2),
      Tuple3Ref.take_ownership_unchecked f0 f1 f2 (a0, a1, a2) =
        (f0 a0, f1 a1, f2 a2))
    ∧ (∀ (α0 β0 α1 β1 α2 β2 α3 β3 : Type) (f0 : α0 → β0) (f1 : α1 → β1)
        (f2 : α2 → β2) (f3 : α3 → β3) (a0 : α0) (a1 : α1) (a2 : α2) (a3 : α3),
      Tuple4Ref.take_ownership_unchecked f0 f1 f2 f3 (a0, a1, a2, a3) =
        (f0 a0, f1 a1, f2 a2, f3 a3))
    ∧ (∀ (α0 β0 α1 β1 α2 β2 α3 β3 α4 β4 : Type) (f0 : α0 → β0) (f1 : α1 → β1)
        (f2 : α2 → β2) (f3 : α3 → β3) (f4 : α4 → β4) (a0 : α0) (a1 : α1)
        (a2 : α2) (a3 : α3) (a4 : α4),
      Tuple5Ref.take_ownership_unchecked f0 f1 f2 f3 f4 (a0, a1, a2, a3, a4) =
        (f0 a0, f1 a1, f2 a2, f3 a3, f4 a4))
    ∧ (∀ (α0 β0 α1 β1 α2 β2 α3 β3 α4 β4 α5 β5 : Type) (f0 : α0 → β0)
        (f1 : α1 → β1) (f2 : α2 → β2) (f3 : α3 → β3) (f4 : α4 → β4)
        (f5 : α5 → β5) (a0 : α0) (a1 : α1) (a2 : α2) (a3 : α3) (a4 : α4)
        (a5 : α5),
      Tuple6Ref.take_ownership_unchecked f0 f1 f2 f3 f4 f5
          (a0, a1, a2, a3, a4, a5) =
        (f0 a0, f1 a1, f2 a2, f3 a3, f4 a4, f5 a5))
    ∧ (∀ (α0 β0 α1 β1 α2 β2 α3 β3 α4 β4 α5 β5 α6 β6 : Type) (f0 : α0 → β0)
        (f1 : α1 → β1) (f2 : α2 → β2) (f3 : α3 → β3) (f4 : α4 → β4)
        (f5 : α5 → β5) (f6 : α6 → β6) (a0 : α0) (a1 : α1) (a2 : α2) (a3 : α3)
        (a4 : α4) (a5 : α5) (a6 : α6),
      Tuple7Ref.take_ownership_unchecked f0 f1 f2 f3 f4 f5 f6
          (a0, a1, a2, a3, a4, a5, a6) =
        (f0 a0, f1 a1, f2 a2, f3 a3, f4 a4, f5 a5, f6 a6)) := by
  refine ⟨fun α β f => ⟨rfl, fun r => rfl⟩,
    fun α β f rs => ⟨by simp [VecRef.take_ownership_unchecked],
      fun i => by simp [VecRef.take_ownership_unchecked, List.get?_map]⟩,
    ?_, ?_, ?_, ?_, ?_, ?_⟩ <;> intros <;> rfl

/-- C4: in both safe reclamation entry points embedded here, the grace-period
barrier precedes the unchecked conversion: `take_ownership` appends `sync`
then `takeUnchecked` to the context's event log, the work unit submitted by
`safe_cleanup` does the same, and in each produced log every `takeUnchecked`
emitted by the call is preceded by a `sync` emitted by the call. -/
theorem c4_sync_precedes_unchecked {K V : Type} (r : Ref K V)
    (log : List RcuEvent) :
    (r.take_ownership log).2 =
      log ++ [RcuEvent.sync, RcuEvent.takeUnchecked]
    ∧ (r.safe_cleanup_work log).2 =
      log ++ [RcuEvent.sync, RcuEvent.takeUnchecked]
    ∧ (∀ i, log.length ≤ i →
        ((r.take_ownership log).2).get? i = some RcuEvent.takeUnchecked →
        ∃ j, log.length ≤ j ∧ j < i ∧
          ((r.take_ownership log).2).get? j = some RcuEvent.sync)
    ∧ (∀ i, log.length ≤ i →
        ((r.safe_cleanup_work log).2).get? i = some RcuEvent.takeUnchecked →
        ∃ j, log.length ≤ j ∧ j < i ∧
          ((r.safe_cleanup_work log).2).get? j = some RcuEvent.sync) := by
  have h1 : (r.take_ownership log).2 =
      log ++ [RcuEvent.sync, RcuEvent.takeUnchecked] := by
    simp [Ref.take_ownership, rcu_synchronize]
  have h2 : (r.safe_cleanup_work log).2 =
      log ++ [RcuEvent.sync, RcuEvent.takeUnchecked] := by
    simp [Ref.safe_cleanup_work, rcu_synchronize]
  have horder : ∀ i, log.length ≤ i →
      (log ++ [RcuEvent.sync, RcuEvent.takeUnchecked]).get? i =
        some RcuEvent.takeUnchecked →
      ∃ j, log.length ≤ j ∧ j < i ∧
        (log ++ [RcuEvent.sync, RcuEvent.takeUnchecked]).get? j =
          some RcuEvent.sync := by
    intro i hi hget
    have hne : i ≠ log.length := by
      intro he
      rw [he, List.get?_append_right (le_refl _), Nat.sub_self] at hget
      exact absurd hget (by decide)
    have hlt : log.length < i := lt_of_le_of_ne hi (Ne.symm hne)
    refine ⟨log.length, le_refl _, hlt, ?_⟩
    rw [List.get?_append_right (le_refl _), Nat.sub_self]
    rfl
  exact ⟨h1, h2, by rw [h1]; exact horder, by rw [h2]; exact horder⟩

/-- Witness for C4 at a concrete reference and the empty event log. -/
theorem c4_sync_precedes_unchecked_witness :
    ((Ref.new (⟨0, 0⟩ : RawNode Nat Nat)).take_ownership []).2 =
      [RcuEvent.sync, RcuEvent.takeUnchecked]
    ∧ ∃ j, j < 1 ∧
        (((Ref.new (⟨0, 0⟩ : RawNode Nat Nat)).take_ownership []).2).get? j =
          some RcuEvent.sync := by
  have h := c4_sync_precedes_unchecked (Ref.new (⟨0, 0⟩ : RawNode Nat Nat)) []
  have ho := h.2.2.1 1 (by decide) (by decide)
  obtain ⟨j, _, hj, hs⟩ := ho
  exact ⟨by simpa using h.1, j, hj, hs⟩

/-- C7: round trip.  After `insert(k, v)` on a map with at least one bucket,
detaching the node again — whether by `remove(k)` or by a replacing
`insert(k, v')` — hands back a deferred reference on which the unchecked
conversion performed by `take_ownership` (after its `rcu_synchronize`) yields
an owned entry whose key is `k` and whose value is exactly `v`. -/
theorem c7_round_trip {K V : Type} [DecidableEq K] (m : RcuHashMap K V)
    (k : K) (v : V) (log : List RcuEvent)
    (hlen : 0 < m.raw.buckets.length) :
    (∃ ref : Ref K V, (((m.insert k v).2).remove k).1 = some ref
      ∧ ((ref.take_ownership log).1.1).map RefOwned.key = some k
      ∧ ((ref.take_ownership log).1.1).map RefOwned.value = some v)
    ∧ ∀ v' : V, ∃ ref : Ref K V,
        (((m.insert k v).2).insert k v').1 = some ref
        ∧ ((ref.take_ownership log).1.1).map RefOwned.key = some k
        ∧ ((ref.take_ownership log).1.1).map RefOwned.value = some v := by
  have hl : (((m.insert k v).2).raw.lookup k).1 = some ⟨k, v⟩ :=
    RawMap.lookup_add_replace m.raw k v hlen
  constructor
  · refine ⟨Ref.new ⟨k, v⟩, ?_, rfl, rfl⟩
    have hd := RawMap.del_of_lookup _ k ⟨k, v⟩ hl
    simp [RcuHashMap.remove, hl, hd]
  · intro v'
    refine ⟨Ref.new ⟨k, v⟩, ?_, rfl, rfl⟩
    have ha : ((m.raw.add_replace k v).2.add_replace k v').1 =
        some ⟨k, v⟩ := RawMap.add_replace_of_lookup _ k ⟨k, v⟩ v' hl
    simp only [RcuHashMap.insert, ha, Option.map_some']

/-- Witness for C7 at the concrete four-bucket map, key `1`, value `"a"`. -/
theorem c7_round_trip_witness :
    (∃ ref : Ref Nat String,
      (((exampleMap.insert 1 "a").2).remove 1).1 = some ref
      ∧ ((ref.take_ownership []).1.1).map RefOwned.key = some 1
      ∧ ((ref.take_ownership []).1.1).map RefOwned.value = some "a")
    ∧ ∀ v' : String, ∃ ref : Ref Nat String,
        (((exampleMap.insert 1 "a").2).insert 1 v').1 = some ref
        ∧ ((ref.take_ownership []).1.1).map RefOwned.key = some 1
        ∧ ((ref.take_ownership []).1.1).map RefOwned.value = some "a" :=
  c7_round_trip exampleMap 1 "a" [] (by decide)

/-- C1: inserting a fresh key `k` with `v1` returns `none`; a second insert of
`k` with `v2` returns `some` deferred reference whose value is `v1` (the
replaced node, detached and handed back rather than freed in place), after
which exactly one live node for `k` remains in the whole table and `get(k)`
returns `v2`. -/
theorem c1_insert_then_replace {K V : Type} [DecidableEq K]
    (m : RcuHashMap K V) (k : K) (v1 v2 : V)
    (hlen : 0 < m.raw.buckets.length) (habs : m.hasNoKey k) :
    (m.insert k v1).1 = none
    ∧ (∃ ref : Ref K V, (((m.insert k v1).2).insert k v2).1 = some ref
        ∧ ref.value = some v1)
    ∧ (((m.insert k v1).2).insert k v2).2.countKey k = 1
    ∧ ((((m.insert k v1).2).insert k v2).2.get k).1 = some v2 := by
  have hi : m.raw.bucketIdx k < m.raw.buckets.length := Nat.mod_lt _ hlen
  obtain ⟨b, hb⟩ : ∃ b, m.raw.buckets.get? (m.raw.bucketIdx k) = some b :=
    ⟨_, List.get?_eq_get hi⟩
  have habs_b : ∀ n ∈ b, n.key ≠ k := habs b (List.get?_mem hb)
  have hrw : replaceWalk (⟨k, v1⟩ : RawNode K V) b = none :=
    replaceWalk_none_of_absent _ _ habs_b
  have hins1 : m.raw.add_replace k v1 =
      (none, ⟨m.raw.hash,
        m.raw.buckets.set (m.raw.bucketIdx k) (⟨k, v1⟩ :: b)⟩) := by
    unfold RawMap.add_replace
    simp only [hb, hrw]
  have hidx1 : (⟨m.raw.hash,
      m.raw.buckets.set (m.raw.bucketIdx k) (⟨k, v1⟩ :: b)⟩ :
        RawMap K V).bucketIdx k = m.raw.bucketIdx k := by
    simp [RawMap.bucketIdx, List.length_set]
  have hb1 : (m.raw.buckets.set (m.raw.bucketIdx k)
      (⟨k, v1⟩ :: b)).get? (m.raw.bucketIdx k) = some (⟨k, v1⟩ :: b) :=
    List.get?_set_eq_of_lt _ hi
  have hrw1 : replaceWalk (⟨k, v2⟩ : RawNode K V) (⟨k, v1⟩ :: b) =
      some (⟨k, v2⟩ :: b, ⟨k, v1⟩) := by
    simp [replaceWalk]
  have hins2 : (⟨m.raw.hash,
      m.raw.buckets.set (m.raw.bucketIdx k) (⟨k, v1⟩ :: b)⟩ :
        RawMap K V).add_replace k v2 =
      (some ⟨k, v1⟩, ⟨m.raw.hash,
        (m.raw.buckets.set (m.raw.bucketIdx k)
          (⟨k, v1⟩ :: b)).set (m.raw.bucketIdx k) (⟨k, v2⟩ :: b)⟩) := by
    unfold RawMap.add_replace
    simp only [hidx1, hb1, hrw1]
  have hlen1 : 0 < (⟨m.raw.hash,
      m.raw.buckets.set (m.raw.bucketIdx k) (⟨k, v1⟩ :: b)⟩ :
        RawMap K V).buckets.length := by
    simpa [List.length_set] using hlen
  refine ⟨by simp [RcuHashMap.insert, hins1], ⟨Ref.new ⟨k, v1⟩, ?_, rfl⟩,
    ?_, ?_⟩
  · simp only [RcuHashMap.insert, hins1, hins2, Option.map_some']
  · have hbuckets : (((m.insert k v1).2).insert k v2).2.raw.buckets =
        m.raw.buckets.set (m.raw.bucketIdx k) (⟨k, v2⟩ :: b) := by
      simp only [RcuHashMap.insert, hins1, hins2]
      exact List.set_set _ _ _ _
    unfold RcuHashMap.countKey
    rw [hbuckets, List.countP_flatten, List.map_set]
    have h0 : ∀ x ∈ m.raw.buckets.map
        (List.countP (fun n => decide (n.key = k))), x = 0 := by
      intro x hx
      obtain ⟨bb, hbb, rfl⟩ := List.mem_map.mp hx
      exact List.countP_eq_zero.mpr fun n hn => by
        simpa using habs bb hbb n hn
    rw [list_sum_set_of_zero _ _ _ h0 (by simpa using hi)]
    have hcb : b.countP (fun n => decide (n.key = k)) = 0 :=
      List.countP_eq_zero.mpr fun n hn => by simpa using habs_b n hn
    simp [List.countP_cons, hcb]
  · have hget : (((⟨m.raw.hash,
        m.raw.buckets.set (m.raw.bucketIdx k) (⟨k, v1⟩ :: b)⟩ :
          RawMap K V).add_replace k v2).2.lookup k).1 = some ⟨k, v2⟩ :=
      RawMap.lookup_add_replace _ k v2 hlen1
    simp only [RcuHashMap.get, RcuHashMap.insert, hins1, hget,
      Option.map_some']

/-- Witness for C1 at the concrete four-bucket map, key `3`, values `"a"`
then `"b"`. -/
theorem c1_insert_then_replace_witness :
    (exampleMap.insert 3 "a").1 = none
    ∧ (∃ ref : Ref Nat String,
        (((exampleMap.insert 3 "a").2).insert 3 "b").1 = some ref
        ∧ ref.value = some "a")
    ∧ (((exampleMap.insert 3 "a").2).insert 3 "b").2.countKey 3 = 1
    ∧ ((((exampleMap.insert 3 "a").2).insert 3 "b").2.get 3).1 = some "b" :=
  c1_insert_then_replace exampleMap 3 "a" "b" (by decide)
    (by decide : ∀ b ∈ exampleMap.raw.buckets, ∀ n ∈ b, n.key ≠ 3)

/-- C2: the concrete scenario.  Starting from the empty four-bucket map,
inserting `(1, "a")`, `(2, "b")`, `(1, "c")` gives a map where `get 1` is
`"c"`, iteration yields exactly the pairs `(1, "c")` and `(2, "b")` in some
order, `remove 2` hands back a reference whose value is `"b"`, and `get 2`
afterwards is `none`. -/
theorem c2_concrete_scenario :
    ((((exampleMap.insert 1 "a").2.insert 2 "b").2.insert 1 "c").2.get 1).1 =
      some "c"
    ∧ (((((exampleMap.insert 1 "a").2.insert 2 "b").2.insert 1 "c").2.iter.map
        (fun n => (n.key, n.value))).Perm [(1, "c"), (2, "b")])
    ∧ (∃ ref : Ref Nat String,
        ((((exampleMap.insert 1 "a").2.insert 2 "b").2.insert 1 "c").2.remove
          2).1 = some ref ∧ ref.value = some "b")
    ∧ (((((exampleMap.insert 1 "a").2.insert 2 "b").2.insert 1
        "c").2.remove 2).2.get 2).1 = none := by
  refine ⟨by decide, by decide, ⟨Ref.new ⟨2, "b"⟩, by decide, rfl⟩, by decide⟩

/-- C8: teardown.  The drop of the container performs no RCU primitive on the
dropping thread (it only submits one work unit to the cleanup coordinator),
and the submitted work unit detaches every node still linked in any bucket
(leaving every bucket empty), converts them as one batch after exactly one
`rcu_synchronize`, and destroys the underlying table only after the whole
batch's ownership has been taken (the `destroyTable` event is last). -/
theorem c8_teardown_batch {K V : Type} (m : RcuHashMap K V)
    (log : List RcuEvent) :
    m.drop log = log ++ [RcuEvent.cleanupSubmit]
    ∧ (m.drop_work log).1 =
        m.raw.buckets.flatten.map (fun n => some ⟨n⟩)
    ∧ (m.raw.del_all).2.buckets = List.replicate m.raw.buckets.length []
    ∧ (m.drop_work log).2 = log ++
        ([RcuEvent.readLock, RcuEvent.readUnlock, RcuEvent.sync]
          ++ m.raw.buckets.flatten.map (fun _ => RcuEvent.takeUnchecked)
          ++ [RcuEvent.destroyTable])
    ∧ ([RcuEvent.readLock, RcuEvent.readUnlock, RcuEvent.sync]
          ++ m.raw.buckets.flatten.map (fun _ => RcuEvent.takeUnchecked)
          ++ [RcuEvent.destroyTable]).count RcuEvent.sync = 1
    ∧ (m.drop_work log).2.getLast? = some RcuEvent.destroyTable := by
  have htrace : (m.drop_work log).2 = log ++
      ([RcuEvent.readLock, RcuEvent.readUnlock, RcuEvent.sync]
        ++ m.raw.buckets.flatten.map (fun _ => RcuEvent.takeUnchecked)
        ++ [RcuEvent.destroyTable]) := by
    simp only [RcuHashMap.drop_work, RawMap.del_all, rcu_synchronize,
      List.map_map, Function.comp_def, List.append_assoc, List.cons_append,
      List.nil_append]
  refine ⟨rfl, ?_, rfl, htrace, ?_, ?_⟩
  · simp only [RcuHashMap.drop_work, RawMap.del_all, List.map_map,
      Function.comp_def, Ref.new, Ref.take_ownership_unchecked,
      Option.map_some']
  · have h0 : (m.raw.buckets.flatten.map
        (fun _ => RcuEvent.takeUnchecked)).count RcuEvent.sync = 0 := by
      rw [List.count_eq_zero]
      intro hmem
      obtain ⟨a, _, ha⟩ := List.mem_map.mp hmem
      exact RcuEvent.noConfusion ha
    rw [List.count_append, List.count_append, h0]
    decide
  · rw [htrace, show log ++
        ([RcuEvent.readLock, RcuEvent.readUnlock, RcuEvent.sync]
          ++ m.raw.buckets.flatten.map (fun _ => RcuEvent.takeUnchecked)
          ++ [RcuEvent.destroyTable]) =
        (log ++ ([RcuEvent.readLock, RcuEvent.readUnlock, RcuEvent.sync]
          ++ m.raw.buckets.flatten.map (fun _ => RcuEvent.takeUnchecked)))
          ++ [RcuEvent.destroyTable] by simp [List.append_assoc]]
    exact List.getLast?_concat _

end Urcu
